import Mathlib

set_option maxRecDepth 200000

/-!
Shallow embedding of sync_gateway `db/revision.go` (revision-ID codec and
body utilities) together with the bucket-facing old-revision archive and the
`Body.Unmarshal` entry point.  Each definition is translated from the Go
source; external collaborators (the JSON decoder, `base.ReflectExpiry`, the
Couchbase bucket) are injected as explicit parameters or modelled as plain
state, exactly at the call boundary the Go code uses.
-/

namespace SGW

/-- A JSON value as decoded into a Go `interface{}`: null, bool, number,
string, array, or object.  Numbers are restricted to integers (the digest
claims never exercise fractional literals); objects carry their entries as an
association list standing for Go's `map[string]interface{}`. -/
inductive JVal : Type
  | null : JVal
  | bool : Bool → JVal
  | num : Int → JVal
  | str : String → JVal
  | arr : List JVal → JVal
  | obj : List (String × JVal) → JVal

/-- `type Body map[string]interface{}` — the body of a CouchDB document.
Modelled as an association list; Go map semantics means the key list of a
well-formed body is duplicate-free and its order carries no meaning. -/
abbrev Body := List (String × JVal)

def BodyDeleted : String := "_deleted"
def BodyRev : String := "_rev"
def BodyId : String := "_id"
def BodyRevisions : String := "_revisions"
def BodyAttachments : String := "_attachments"

/-- `key[0] == '_'` guarded by `key != ""` — whether a body key begins with
an underscore (false for the empty key, which Go's guard also treats as
non-special). -/
def keyStartsUnderscore (k : String) : Bool :=
  match k.data with
  | [] => false
  | c :: _ => c = '_'

/-- `stripSpecialProperties` — keep exactly the entries whose key is empty,
does not begin with `_`, or is `_attachments` / `_deleted`. -/
def stripSpecialProperties (body : Body) : Body :=
  body.filter fun kv =>
    kv.1 = "" || !(keyStartsUnderscore kv.1) || kv.1 = BodyAttachments || kv.1 = BodyDeleted

/-- `containsUserSpecialProperties` — true when some key begins with `_`
and is none of `_id`, `_rev`, `_deleted`, `_attachments`, `_revisions`. -/
def containsUserSpecialProperties (body : Body) : Bool :=
  body.any fun kv =>
    kv.1 != "" && keyStartsUnderscore kv.1 && kv.1 != BodyId && kv.1 != BodyRev &&
      kv.1 != BodyDeleted && kv.1 != BodyAttachments && kv.1 != BodyRevisions

/-! ### Go `fmt.Sscanf(revid, "%d-%s", ...)` model

`fmt` scanning of `%d` skips leading spaces (stopping with an error at a
newline, since `Sscanf` does not treat newlines as spaces; a lone carriage
return is skipped as a space, while one immediately followed by a line feed
reduces to the newline error), accepts an optional sign and then a non-empty
run of ASCII digits, converted with `strconv.ParseInt(tok, 10, 64)` — a
value outside int64 range is a scan error, so the operand is not counted;
the literal `-` must match the next input character exactly; `%s` again
skips spaces and then takes a non-empty maximal run of non-space characters.
The returned count `n` is the number of verbs successfully scanned before
the first failure. -/

/-- Space characters that `fmt` scanning skips unconditionally (Go's
`isSpace` table minus the two newline characters, which `SkipSpace`
special-cases). -/
def isSkipSpace (c : Char) : Bool :=
  c = ' ' || c = '\t' || c = '\x0b' || c = '\x0c' || c = '\u0085' || c = '\u00A0'

/-- Newline characters; both end a `%s` token. -/
def isNewlineChar (c : Char) : Bool :=
  c = '\n' || c = '\r'

/-- Any character the scanner treats as white space (ends a `%s` token). -/
def isGoSpace (c : Char) : Bool :=
  isSkipSpace c || isNewlineChar c

/-- Skip leading skippable spaces; `none` when a newline is met first
(`Sscanf` reports "unexpected newline" there).  A lone carriage return is
skipped as a space; a carriage return directly followed by a line feed is
consumed and the line feed then raises the newline error. -/
def skipSpaceNoNL : List Char → Option (List Char)
  | [] => some []
  | c :: t =>
    if c = '\n' then none
    else if c = '\r' then
      match t with
      | '\n' :: _ => none
      | _ => skipSpaceNoNL t
    else if isSkipSpace c then skipSpaceNoNL t
    else some (c :: t)

/-- Value of a run of ASCII digits. -/
def natOfDigits (ds : List Char) : Nat :=
  ds.foldl (fun a c => 10 * a + (c.toNat - 48)) 0

/-- After the integer: match the literal `-`, then scan `%s`.  Returns the
`(n, generation, id)` triple of the whole `Sscanf`. -/
def scanDashDigest (g : Int) : List Char → Nat × Int × String
  | '-' :: cs4 =>
    match skipSpaceNoNL cs4 with
    | none => (1, g, "")
    | some cs5 =>
      let tok := cs5.takeWhile fun c => !(isGoSpace c)
      if tok.isEmpty then (1, g, "") else (2, g, String.mk tok)
  | _ => (1, g, "")

/-- Scan the digit run after an optional sign has been consumed.  A value
out of int64 range (`strconv.ParseInt(tok, 10, 64)` overflow: above
2^63 - 1, or above 2^63 for a negated token) is a scan error — `n` = 0 and
nothing further is scanned. -/
def scanAfterSign (neg : Bool) (cs2 : List Char) : Nat × Int × String :=
  let ds := cs2.takeWhile Char.isDigit
  if ds.isEmpty then (0, 0, "")
  else if natOfDigits ds > (if neg then 9223372036854775808 else 9223372036854775807) then
    (0, 0, "")
  else
    let g : Int := if neg then -(natOfDigits ds : Int) else (natOfDigits ds : Int)
    scanDashDigest g (cs2.dropWhile Char.isDigit)

/-- `fmt.Sscanf(cs, "%d-%s", &generation, &id)`: count of scanned verbs,
the integer, and the token (zero values when not reached). -/
def sscanIntDashString (cs : List Char) : Nat × Int × String :=
  match skipSpaceNoNL cs with
  | none => (0, 0, "")
  | some cs1 =>
    if cs1.head? = some '-' then scanAfterSign true cs1.tail
    else if cs1.head? = some '+' then scanAfterSign false cs1.tail
    else scanAfterSign false cs1

/-- `ParseRevID` — split a revision ID into generation number and digest. -/
def ParseRevID (revid : String) : Int × String :=
  if revid = "" then (0, "")
  else
    let r := sscanIntDashString revid.data
    if r.1 < 1 ∨ r.2.1 < 1 then (-1, "") else (r.2.1, r.2.2)

/-! ### Go string comparison

Go `<` on `string` is bytewise lexicographic; UTF-8 preserves the
lexicographic order of code points, so comparing the character lists by
code point is the same order. -/

/-- Bytewise-lexicographic `<` of Go strings, on their character lists. -/
def charListLt : List Char → List Char → Bool
  | [], [] => false
  | [], _ :: _ => true
  | _ :: _, [] => false
  | a :: as, b :: bs => if a < b then true else if b < a then false else charListLt as bs

/-- Go `s1 < s2` on strings. -/
def goStringLt (a b : String) : Bool :=
  charListLt a.data b.data

/-- `compareRevIDs` — 1 when `id1` is greater, -1 when less, 0 when the
parsed `(generation, digest)` pairs agree.  The digest comparison is Go's
string comparison. -/
def compareRevIDs (id1 id2 : String) : Int :=
  let p1 := ParseRevID id1
  let p2 := ParseRevID id2
  if p2.1 < p1.1 then 1
  else if p1.1 < p2.1 then -1
  else if goStringLt p2.2 p1.2 then 1
  else if goStringLt p1.2 p2.2 then -1
  else 0

/-- The same comparison on already-parsed pairs (definitionally the body of
`compareRevIDs`). -/
def cmpPair (p1 p2 : Int × String) : Int :=
  if p2.1 < p1.1 then 1
  else if p1.1 < p2.1 then -1
  else if goStringLt p2.2 p1.2 then 1
  else if goStringLt p1.2 p2.2 then -1
  else 0

/-- Strict lexicographic order on parsed `(generation, digest)` pairs:
generation ascending, then digest ascending in Go string order. -/
def lexLtPair (p q : Int × String) : Prop :=
  p.1 < q.1 ∨ (p.1 = q.1 ∧ goStringLt p.2 q.2 = true)

/-! ### Canonical JSON encoding (`canonicalEncoding` = Go `json.Marshal`)

Go's `json.Marshal` emits map entries with keys sorted bytewise ascending and
HTML-escapes `<`, `>`, `&` inside strings (the default encoder the source
uses).  Keys are sorted at every nesting level. -/

/-- Go `s1 <= s2` on strings (bytewise). -/
def charListLe (as bs : List Char) : Bool :=
  !(charListLt bs as)

/-- Order on `(key, encoded-value)` pairs by key, Go string order. -/
def keyLE (p q : String × String) : Prop :=
  charListLe p.1.data q.1.data = true

instance : DecidableRel keyLE := fun _ _ => instDecidableEqBool _ _

/-- Sort encoded map entries by key ascending, as `json.Marshal` does. -/
def sortPairs (l : List (String × String)) : List (String × String) :=
  List.insertionSort keyLE l

/-- The lowercase hex digit of a nibble (0-9 then a-f). -/
def hexDigitChar (n : Nat) : Char :=
  Char.ofNat (if n < 10 then 48 + n else 87 + n)

/-- Two lowercase hex digits of a byte. -/
def byteToHex (b : Nat) : String :=
  String.mk [hexDigitChar (b / 16 % 16), hexDigitChar (b % 16)]

/-- One character of a JSON string, escaped the way Go's default encoder
escapes it (HTML escaping on). -/
def escapeChar (c : Char) : String :=
  if c = '"' then "\\\""
  else if c = '\\' then "\\\\"
  else if c = '\n' then "\\n"
  else if c = '\r' then "\\r"
  else if c = '\t' then "\\t"
  else if c = '<' then "\\u003c"
  else if c = '>' then "\\u003e"
  else if c = '&' then "\\u0026"
  else if c.toNat < 32 then "\\u00" ++ byteToHex c.toNat
  else if c = '\u2028' then "\\u2028"
  else if c = '\u2029' then "\\u2029"
  else String.mk [c]

def encodeJSONString (s : String) : String :=
  "\"" ++ String.join (s.data.map escapeChar) ++ "\""

mutual

/-- `json.Marshal` of a decoded value. -/
def encodeJVal : JVal → String
  | .null => "null"
  | .bool true => "true"
  | .bool false => "false"
  | .num n => toString n
  | .str s => encodeJSONString s
  | .arr l => "[" ++ String.intercalate "," (encodeVals l) ++ "]"
  | .obj l =>
    "\x7b" ++
      String.intercalate ","
        ((sortPairs (encodePairs l)).map fun kv => encodeJSONString kv.1 ++ ":" ++ kv.2) ++
      "\x7d"

def encodeVals : List JVal → List String
  | [] => []
  | v :: t => encodeJVal v :: encodeVals t

def encodePairs : List (String × JVal) → List (String × String)
  | [] => []
  | kv :: t => (kv.1, encodeJVal kv.2) :: encodePairs t

end

/-- UTF-8 bytes of one character. -/
def utf8Bytes (c : Char) : List Nat :=
  let n := c.toNat
  if n < 128 then [n]
  else if n < 2048 then [192 + n / 64, 128 + n % 64]
  else if n < 65536 then [224 + n / 4096, 128 + n / 64 % 64, 128 + n % 64]
  else [240 + n / 262144, 128 + n / 4096 % 64, 128 + n / 64 % 64, 128 + n % 64]

/-- The bytes of a Go string (`[]byte(s)`); `(strBytes s).length` is Go's
`len(s)`. -/
def strBytes (s : String) : List Nat :=
  s.data.foldr (fun c acc => utf8Bytes c ++ acc) []

/-- `canonicalEncoding` — `json.Marshal` of the body, as bytes.  (Marshal of
one of our values never returns an error, so the Go panic branch is dead.) -/
def canonicalEncoding (body : Body) : List Nat :=
  strBytes (encodeJVal (JVal.obj body))

/-! ### MD5 (`crypto/md5`), RFC 1321, over byte lists with `Nat` words -/

def md5K : List Nat :=
  [0xd76aa478, 0xe8c7b756, 0x242070db, 0xc1bdceee,
   0xf57c0faf, 0x4787c62a, 0xa8304613, 0xfd469501,
   0x698098d8, 0x8b44f7af, 0xffff5bb1, 0x895cd7be,
   0x6b901122, 0xfd987193, 0xa679438e, 0x49b40821,
   0xf61e2562, 0xc040b340, 0x265e5a51, 0xe9b6c7aa,
   0xd62f105d, 0x02441453, 0xd8a1e681, 0xe7d3fbc8,
   0x21e1cde6, 0xc33707d6, 0xf4d50d87, 0x455a14ed,
   0xa9e3e905, 0xfcefa3f8, 0x676f02d9, 0x8d2a4c8a,
   0xfffa3942, 0x8771f681, 0x6d9d6122, 0xfde5380c,
   0xa4beea44, 0x4bdecfa9, 0xf6bb4b60, 0xbebfbc70,
   0x289b7ec6, 0xeaa127fa, 0xd4ef3085, 0x04881d05,
   0xd9d4d039, 0xe6db99e5, 0x1fa27cf8, 0xc4ac5665,
   0xf4292244, 0x432aff97, 0xab9423a7, 0xfc93a039,
   0x655b59c3, 0x8f0ccc92, 0xffeff47d, 0x85845dd1,
   0x6fa87e4f, 0xfe2ce6e0, 0xa3014314, 0x4e0811a1,
   0xf7537e82, 0xbd3af235, 0x2ad7d2bb, 0xeb86d391]

def md5S : List Nat :=
  [7, 12, 17, 22, 7, 12, 17, 22, 7, 12, 17, 22, 7, 12, 17, 22,
   5, 9, 14, 20, 5, 9, 14, 20, 5, 9, 14, 20, 5, 9, 14, 20,
   4, 11, 16, 23, 4, 11, 16, 23, 4, 11, 16, 23, 4, 11, 16, 23,
   6, 10, 15, 21, 6, 10, 15, 21, 6, 10, 15, 21, 6, 10, 15, 21]

/-- 32-bit left rotation (inputs are `< 2^32`). -/
def rotl32 (x n : Nat) : Nat :=
  ((x <<< n) % 4294967296) + ((x % 4294967296) >>> (32 - n))

/-- 32-bit complement. -/
def compl32 (x : Nat) : Nat :=
  x ^^^ 4294967295

def md5F (i b c d : Nat) : Nat :=
  if i < 16 then (b &&& c) ||| (compl32 b &&& d)
  else if i < 32 then (d &&& b) ||| (compl32 d &&& c)
  else if i < 48 then b ^^^ c ^^^ d
  else c ^^^ (b ||| compl32 d)

def md5G (i : Nat) : Nat :=
  if i < 16 then i
  else if i < 32 then (5 * i + 1) % 16
  else if i < 48 then (3 * i + 5) % 16
  else (7 * i) % 16

def md5Round (M : Nat → Nat) (st : Nat × Nat × Nat × Nat) (i : Nat) : Nat × Nat × Nat × Nat :=
  let f := (md5F i st.2.1 st.2.2.1 st.2.2.2 + st.1 + md5K.getD i 0 + M (md5G i)) % 4294967296
  (st.2.2.2, (st.2.1 + rotl32 f (md5S.getD i 0)) % 4294967296, st.2.1, st.2.2.1)

/-- One 64-byte block, updating the running state. -/
def md5Block (st : Nat × Nat × Nat × Nat) (blk : List Nat) : Nat × Nat × Nat × Nat :=
  let M : Nat → Nat := fun j =>
    blk.getD (4 * j) 0 + 256 * blk.getD (4 * j + 1) 0 + 65536 * blk.getD (4 * j + 2) 0 +
      16777216 * blk.getD (4 * j + 3) 0
  let r := (List.range 64).foldl (md5Round M) st
  ((st.1 + r.1) % 4294967296, (st.2.1 + r.2.1) % 4294967296,
    (st.2.2.1 + r.2.2.1) % 4294967296, (st.2.2.2 + r.2.2.2) % 4294967296)

/-- `n` little-endian bytes of `x`. -/
def leBytes : Nat → Nat → List Nat
  | 0, _ => []
  | n + 1, x => (x % 256) :: leBytes n (x / 256)

/-- MD5 padding: `0x80`, zeros to 56 mod 64, then the 64-bit bit length. -/
def md5Pad (msg : List Nat) : List Nat :=
  msg ++ [128] ++ List.replicate ((119 - msg.length % 64) % 64) 0 ++
    leBytes 8 ((msg.length * 8) % 18446744073709551616)

/-- Split into 64-byte blocks; the fuel (any bound on the block count, here
the byte count) keeps the recursion structural. -/
def md5ChunksAux : Nat → List Nat → List (List Nat)
  | 0, _ => []
  | fuel + 1, l => if l.isEmpty then [] else l.take 64 :: md5ChunksAux fuel (l.drop 64)

def md5Chunks (l : List Nat) : List (List Nat) :=
  md5ChunksAux l.length l

/-- The 16 digest bytes. -/
def md5Digest (msg : List Nat) : List Nat :=
  let r := (md5Chunks (md5Pad msg)).foldl md5Block (0x67452301, 0xefcdab89, 0x98badcfe, 0x10325476)
  leBytes 4 r.1 ++ leBytes 4 r.2.1 ++ leBytes 4 r.2.2.1 ++ leBytes 4 r.2.2.2

/-- `fmt.Sprintf("%x", digest)` — lowercase hex of the digest bytes. -/
def md5Hex (msg : List Nat) : String :=
  String.join ((md5Digest msg).map byteToHex)

/-- `createRevID(generation, parentRevID, body)` — the digester is fed
`byte(len(parentRevID))`, the parent's bytes, and the canonical encoding of
the stripped body; the result is `"<generation>-<hex digest>"`. -/
def createRevID (generation : Int) (parentRevID : String) (body : Body) : String :=
  let input := ((strBytes parentRevID).length % 256) :: strBytes parentRevID ++
    canonicalEncoding (stripSpecialProperties body)
  toString generation ++ "-" ++ md5Hex input

/-- The revision ID exactly as the spec words it (C1): hex MD5 of "one byte
equal to `len(p)`, followed by the bytes of `p`, followed by the
deterministic JSON encoding (object keys sorted) of the stripped body",
formatted `"<g>-<hex>"`. -/
def createRevIDFromSpec (g : Int) (p : String) (b : Body) : String :=
  toString g ++ "-" ++
    md5Hex ((strBytes p).length :: strBytes p ++ canonicalEncoding (stripSpecialProperties b))

/-! ### Old-revision body archive (`setOldRevisionJSON` / `getOldRevisionJSON`)

The Couchbase bucket collaborator is modelled as the key/value map it holds;
`SetRaw` overwrites one key, `GetRaw` misses exactly on absent keys.  The
per-database expiry passed to `SetRaw` is the store's concern and has no
bearing on the stored bytes. -/

/-- `nonJSONPrefix = byte(1)` in the source — the sentinel that hides
archived bodies from N1QL/views. -/
def nonJSONSentinel : Nat := 1

/-- The raw key/value state of the bucket. -/
def Bucket : Type := String → Option (List Nat)

/-- `Bucket.SetRaw key _expiry value`. -/
def bucketSetRaw (bkt : Bucket) (key : String) (val : List Nat) : Bucket :=
  fun k => if k = key then some val else bkt k

/-- `oldRevisionKey(docid, revid)` = `"_sync:rev:<docid>:<len(revid)>:<revid>"`. -/
def oldRevisionKey (docid revid : String) : String :=
  "_sync:rev:" ++ docid ++ ":" ++ toString (strBytes revid).length ++ ":" ++ revid

/-- The Go idiom `body = append(body, 0); copy(body[1:], body[0:]);
body[0] = nonJSONPrefix`: grow by one, shift right by one, overwrite the
head with the sentinel. -/
def prependSentinel (body : List Nat) : List Nat :=
  let grown := body ++ [0]
  let shifted := grown.take 1 ++ grown.take body.length
  shifted.set 0 nonJSONSentinel

/-- `setOldRevisionJSON` — store the sentinel-prefixed body under the
archive key. -/
def setOldRevisionJSON (bkt : Bucket) (docid revid : String) (body : List Nat) : Bucket :=
  bucketSetRaw bkt (oldRevisionKey docid revid) (prependSentinel body)

/-- `getOldRevisionJSON` — fetch the archived body; a miss is the 404
"missing" error; a leading sentinel byte is stripped. -/
def getOldRevisionJSON (bkt : Bucket) (docid revid : String) : Except Nat (List Nat) :=
  match bkt (oldRevisionKey docid revid) with
  | none => .error 404
  | some data =>
    .ok (match data with
      | [] => []
      | b :: rest => if b = nonJSONSentinel then rest else b :: rest)

/-! ### Expiry extraction

`base.ReflectExpiry` (outside this package) converts the raw `_exp` value to
a `*uint32` plus error; it is injected as the parameter `reflectExpiry`,
returning the optional 32-bit value and the optional error. -/

/-- `getExpiry` — look up `_exp` and convert; absent, unconvertible or nil
conversions report `present = false`. -/
def getExpiry (reflectExpiry : JVal → Option Nat × Option Unit) (body : Body) :
    Nat × Bool × Option Unit :=
  match body.lookup "_exp" with
  | none => (0, false, none)
  | some rawExpiry =>
    let r := reflectExpiry rawExpiry
    if r.2 ≠ none ∨ r.1 = none then (0, false, r.2)
    else (r.1.getD 0, true, r.2)

/-- `extractExpiry` — `getExpiry`, then `delete(body, "_exp")` when a value
was present; returns `(expiry, error)` and the resulting body. -/
def extractExpiry (reflectExpiry : JVal → Option Nat × Option Unit) (body : Body) :
    (Nat × Option Unit) × Body :=
  let r := getExpiry reflectExpiry body
  if r.2.1 = false ∨ r.2.2 ≠ none then ((r.1, r.2.2), body)
  else ((r.1, none), body.filter fun kv => kv.1 != "_exp")

/-! ### `Body.Unmarshal`

The `encoding/json` decoder is external; it is injected as `decode`, whose
first argument is the `UseNumber` flag the source always sets, and which
returns the optional error together with the receiver's new contents. -/

/-- `(b *Body).Unmarshal(data)` — reject empty input before any decoding;
otherwise decode with `UseNumber` into the receiver. -/
def Body.Unmarshal (decode : Bool → List Nat → Body → Option String × Body)
    (b : Body) (data : List Nat) : Option String × Body :=
  if data.length = 0 then (some "Unexpected empty JSON input to body.Unmarshal", b)
  else decode true data b

/-! ## Sanity checks mirroring the repository's own unit tests -/

example : ParseRevID "3-huey" = (3, "huey") := by decide
example : ParseRevID "x-14159" = (-1, "") := by decide
example : ParseRevID "" = (0, "") := by decide
example : compareRevIDs "1-aaa" "1-aaa" = 0 := by decide
example : compareRevIDs "1-aaa" "5-aaa" = -1 := by decide
example : compareRevIDs "10-aaa" "5-aaa" = 1 := by decide
example : compareRevIDs "1-bbb" "1-aaa" = 1 := by decide
example : compareRevIDs "5-bbb" "1-zzz" = 1 := by decide
example : md5Hex (strBytes "") = "d41d8cd98f00b204e9800998ecf8427e" := by decide
example : md5Hex (strBytes "abc") = "900150983cd24fb0d6963f7d28e17f72" := by decide

/-! ## Helper lemmas -/

/-- Looking a key up after filtering by a key predicate. -/
theorem lookup_filterKey (p : String → Bool) (l : Body) (k : String) :
    (l.filter fun kv => p kv.1).lookup k = if p k then l.lookup k else none := by
  induction l with
  | nil => simp [List.lookup]
  | cons kv t ih =>
    obtain ⟨k', v⟩ := kv
    by_cases hk : k = k'
    · subst hk
      by_cases hp : p k
      · simp [List.filter_cons, hp, List.lookup]
      · simp [List.filter_cons, hp, List.lookup, ih]
    · have hbeq : (k == k') = false := by simp [hk]
      by_cases hp : p k'
      · simp [List.filter_cons, hp, List.lookup, hbeq, ih]
      · simp [List.filter_cons, hp, List.lookup, hbeq, ih]

/-! ## Order facts about Go string comparison -/

theorem charListLt_asymm : ∀ {as bs : List Char},
    charListLt as bs = true → charListLt bs as = false := by
  intro as
  induction as with
  | nil =>
    intro bs h
    cases bs with
    | nil => simp [charListLt] at h
    | cons b t => simp [charListLt]
  | cons a as ih =>
    intro bs h
    cases bs with
    | nil => simp [charListLt] at h
    | cons b bs' =>
      simp only [charListLt] at h ⊢
      by_cases hab : a < b
      · simp [hab, lt_asymm hab]
      · by_cases hba : b < a
        · simp [hab, hba] at h
        · simp only [hab, hba, if_false] at h ⊢
          simp [ih h]

theorem charListLt_eq_of_not : ∀ {as bs : List Char},
    charListLt as bs = false → charListLt bs as = false → as = bs := by
  intro as
  induction as with
  | nil =>
    intro bs h1 _
    cases bs with
    | nil => rfl
    | cons b t => simp [charListLt] at h1
  | cons a as ih =>
    intro bs h1 h2
    cases bs with
    | nil => simp [charListLt] at h2
    | cons b bs' =>
      simp only [charListLt] at h1 h2
      by_cases hab : a < b
      · simp [hab] at h1
      · by_cases hba : b < a
        · simp [hba] at h2
        · have hab' : a = b := le_antisymm (not_lt.mp hba) (not_lt.mp hab)
          simp only [hab, hba, if_false] at h1 h2
          rw [hab', ih h1 h2]

theorem charListLt_trans : ∀ {as bs cs : List Char},
    charListLt as bs = true → charListLt bs cs = true → charListLt as cs = true := by
  intro as
  induction as with
  | nil =>
    intro bs cs h1 h2
    cases bs with
    | nil => simp [charListLt] at h1
    | cons b bs' =>
      cases cs with
      | nil => simp [charListLt] at h2
      | cons c cs' => simp [charListLt]
  | cons a as ih =>
    intro bs cs h1 h2
    cases bs with
    | nil => simp [charListLt] at h1
    | cons b bs' =>
      cases cs with
      | nil => simp [charListLt] at h2
      | cons c cs' =>
        simp only [charListLt] at h1 h2 ⊢
        by_cases hab : a < b
        · by_cases hbc : b < c
          · simp [lt_trans hab hbc]
          · by_cases hcb : c < b
            · simp [hbc, hcb] at h2
            · have hbc' : b = c := le_antisymm (not_lt.mp hcb) (not_lt.mp hbc)
              simp [hbc' ▸ hab]
        · by_cases hba : b < a
          · simp [hab, hba] at h1
          · have hab' : a = b := le_antisymm (not_lt.mp hba) (not_lt.mp hab)
            simp only [hab, hba, if_false] at h1
            subst hab'
            by_cases hac : a < c
            · simp [hac]
            · by_cases hca : c < a
              · simp [hac, hca] at h2
              · simp only [hac, hca, if_false] at h2 ⊢
                simp [ih h1 h2]

theorem goStringLt_asymm {a b : String} (h : goStringLt a b = true) : goStringLt b a = false :=
  charListLt_asymm h

theorem goStringLt_trans {a b c : String} (h1 : goStringLt a b = true)
    (h2 : goStringLt b c = true) : goStringLt a c = true :=
  charListLt_trans h1 h2

/-! ## cmpPair facts -/

theorem cmpPair_antisymm (p q : Int × String) : cmpPair p q = -cmpPair q p := by
  unfold cmpPair
  rcases lt_trichotomy p.1 q.1 with h | h | h
  · rw [if_neg (lt_asymm h), if_pos h, if_pos h]
  · rw [h]
    simp only [lt_irrefl, if_false]
    cases hpq : goStringLt p.2 q.2 with
    | true =>
      rw [goStringLt_asymm hpq]
      simp
    | false =>
      cases hqp : goStringLt q.2 p.2 with
      | true => simp
      | false => simp
  · rw [if_pos h, if_neg (lt_asymm h), if_pos h]
    decide

theorem cmpPair_eq_neg_one (p q : Int × String) : cmpPair p q = -1 ↔ lexLtPair p q := by
  unfold cmpPair lexLtPair
  rcases lt_trichotomy p.1 q.1 with h | h | h
  · simp [h, lt_asymm h]
  · rw [h]
    simp only [lt_irrefl, if_false, eq_self_iff_true, true_and]
    cases hpq : goStringLt p.2 q.2 with
    | true =>
      rw [goStringLt_asymm hpq]
      simp
    | false =>
      cases hqp : goStringLt q.2 p.2 with
      | true => simp
      | false => simp
  · rw [if_pos h]
    simp [lt_asymm h, ne_of_gt h]

theorem cmpPair_range (p q : Int × String) :
    cmpPair p q = -1 ∨ cmpPair p q = 0 ∨ cmpPair p q = 1 := by
  unfold cmpPair
  split_ifs <;> simp

theorem lexLtPair_trans (p q r : Int × String) (h1 : lexLtPair p q) (h2 : lexLtPair q r) :
    lexLtPair p r := by
  rcases h1 with h1 | ⟨e1, s1⟩
  · rcases h2 with h2 | ⟨e2, s2⟩
    · exact Or.inl (lt_trans h1 h2)
    · exact Or.inl (e2 ▸ h1)
  · rcases h2 with h2 | ⟨e2, s2⟩
    · exact Or.inl (e1 ▸ h2)
    · exact Or.inr ⟨e1.trans e2, goStringLt_trans s1 s2⟩

/-! ## C2: compareRevIDs is a total order -/

/-- C2: `compareRevIDs` returns only -1/0/1, is antisymmetric
(`compareRevIDs a b = -compareRevIDs b a`), its strict part is transitive,
and it orders revision IDs by parsed generation ascending then digest
ascending (Go string order). -/
theorem compareRevIDs_total_order :
    (∀ a b, compareRevIDs a b = -compareRevIDs b a) ∧
    (∀ a b c, compareRevIDs a b = -1 → compareRevIDs b c = -1 → compareRevIDs a c = -1) ∧
    (∀ a b, compareRevIDs a b = -1 ∨ compareRevIDs a b = 0 ∨ compareRevIDs a b = 1) ∧
    (∀ a b, compareRevIDs a b = -1 ↔ lexLtPair (ParseRevID a) (ParseRevID b)) := by
  have hdef : ∀ a b, compareRevIDs a b = cmpPair (ParseRevID a) (ParseRevID b) := fun a b => rfl
  refine ⟨?_, ?_, ?_, ?_⟩
  · intro a b
    rw [hdef, hdef]
    exact cmpPair_antisymm _ _
  · intro a b c h1 h2
    rw [hdef] at h1 h2 ⊢
    rw [cmpPair_eq_neg_one] at h1 h2 ⊢
    exact lexLtPair_trans _ _ _ h1 h2
  · intro a b
    rw [hdef]
    exact cmpPair_range _ _
  · intro a b
    rw [hdef]
    exact cmpPair_eq_neg_one _ _

/-- C2 witness: transitivity applied at concrete revision IDs. -/
theorem compareRevIDs_total_order_witness : compareRevIDs "1-aaa" "3-ccc" = -1 :=
  compareRevIDs_total_order.2.1 "1-aaa" "2-bbb" "3-ccc" (by decide) (by decide)

/-! ## C3: stripSpecialProperties -/

/-- C3: `stripSpecialProperties(b)` contains exactly the pairs of `b` whose
key does not start with `_`, plus the `_attachments` and `_deleted` pairs
when present; every other leading-underscore key is removed and retained
values are unchanged. -/
theorem stripSpecialProperties_spec (body : Body) (k : String) :
    (stripSpecialProperties body).lookup k =
      if keyStartsUnderscore k = false ∨ k = BodyAttachments ∨ k = BodyDeleted then
        body.lookup k
      else none := by
  rw [stripSpecialProperties,
    lookup_filterKey
      (fun key =>
        decide (key = "") || !keyStartsUnderscore key || decide (key = BodyAttachments) ||
          decide (key = BodyDeleted))
      body k]
  by_cases h1 : k = ""
  · subst h1
    simp [keyStartsUnderscore]
  · by_cases h2 : keyStartsUnderscore k = false
    · simp [h1, h2]
    · by_cases h3 : k = BodyAttachments
      · simp [h1, h2, h3]
      · by_cases h4 : k = BodyDeleted
        · simp [h1, h2, h3, h4]
        · have h2' : keyStartsUnderscore k = true := by
            revert h2
            cases keyStartsUnderscore k <;> simp
          simp [h1, h2', h3, h4]

/-! ## C7: containsUserSpecialProperties characterisation -/

/-- C7: `containsUserSpecialProperties(b)` is true iff `b` has a top-level
key starting with `_` that is none of `_id`, `_rev`, `_deleted`,
`_attachments`, `_revisions`. -/
theorem containsUserSpecialProperties_iff (body : Body) :
    containsUserSpecialProperties body = true ↔
      ∃ kv, kv ∈ body ∧ keyStartsUnderscore kv.1 = true ∧ kv.1 ≠ BodyId ∧ kv.1 ≠ BodyRev ∧
        kv.1 ≠ BodyDeleted ∧ kv.1 ≠ BodyAttachments ∧ kv.1 ≠ BodyRevisions := by
  rw [containsUserSpecialProperties, List.any_eq_true]
  constructor
  · rintro ⟨kv, hm, hp⟩
    simp only [Bool.and_eq_true, bne_iff_ne] at hp
    exact ⟨kv, hm, hp.1.1.1.1.1.2, hp.1.1.1.1.2, hp.1.1.1.2, hp.1.1.2, hp.1.2, hp.2⟩
  · rintro ⟨kv, hm, hu, h1, h2, h3, h4, h5⟩
    refine ⟨kv, hm, ?_⟩
    have hne : kv.1 ≠ "" := by
      intro he
      rw [he] at hu
      exact absurd hu (by decide)
    simp only [Bool.and_eq_true, bne_iff_ne]
    exact ⟨⟨⟨⟨⟨⟨hne, hu⟩, h1⟩, h2⟩, h3⟩, h4⟩, h5⟩

/-! ## Canonical-encoding determinism and C1 -/

theorem keyLE_total : ∀ a b : String × String, keyLE a b ∨ keyLE b a := by
  intro a b
  rw [keyLE, keyLE, charListLe, charListLe]
  cases h : charListLt b.1.data a.1.data with
  | false => left; rfl
  | true => right; rw [charListLt_asymm h]; rfl

theorem keyLE_trans : ∀ a b c : String × String, keyLE a b → keyLE b c → keyLE a c := by
  intro a b c hab hbc
  have hab' : charListLt b.1.data a.1.data = false := by
    simpa [keyLE, charListLe] using hab
  have hbc' : charListLt c.1.data b.1.data = false := by
    simpa [keyLE, charListLe] using hbc
  rw [keyLE, charListLe]
  cases hca : charListLt c.1.data a.1.data with
  | false => rfl
  | true =>
    exfalso
    cases hab2 : charListLt a.1.data b.1.data with
    | true =>
      have h3 : charListLt c.1.data b.1.data = true := charListLt_trans hca hab2
      rw [h3] at hbc'
      exact Bool.noConfusion hbc'
    | false =>
      have he : a.1.data = b.1.data := charListLt_eq_of_not hab2 hab'
      rw [he] at hca
      rw [hca] at hbc'
      exact Bool.noConfusion hbc'

theorem encodePairs_eq_map (l : List (String × JVal)) :
    encodePairs l = l.map fun kv => (kv.1, encodeJVal kv.2) := by
  induction l with
  | nil => rfl
  | cons kv t ih => simp [encodePairs, ih]

theorem sortPairs_sorted_strict {l : List (String × String)}
    (hn : (l.map Prod.fst).Nodup) :
    (sortPairs l).Sorted fun p q : String × String => charListLt p.1.data q.1.data = true := by
  have hs : (sortPairs l).Sorted keyLE := by
    haveI h1 : IsTotal (String × String) keyLE := ⟨keyLE_total⟩
    haveI h2 : IsTrans (String × String) keyLE := ⟨keyLE_trans⟩
    exact List.sorted_insertionSort keyLE l
  have hperm : (sortPairs l).Perm l := List.perm_insertionSort keyLE l
  have hnd : ((sortPairs l).map Prod.fst).Nodup := ((hperm.map Prod.fst).symm).nodup hn
  have hne : (sortPairs l).Pairwise fun p q => p.1 ≠ q.1 := List.pairwise_map.mp hnd
  refine (hs.and hne).imp fun {p q} h => ?_
  obtain ⟨hle, hne'⟩ := h
  have hlt : charListLt q.1.data p.1.data = false := by
    simpa [keyLE, charListLe] using hle
  cases hab : charListLt p.1.data q.1.data with
  | true => rfl
  | false => exact absurd (String.ext (charListLt_eq_of_not hab hlt)) hne'

theorem sortPairs_eq_of_perm {l1 l2 : List (String × String)} (hp : l1.Perm l2)
    (hn : (l1.map Prod.fst).Nodup) : sortPairs l1 = sortPairs l2 := by
  haveI : IsAntisymm (String × String) (fun p q => charListLt p.1.data q.1.data = true) :=
    ⟨fun a b h1 h2 => by
      rw [charListLt_asymm h1] at h2
      exact Bool.noConfusion h2⟩
  have hn2 : (l2.map Prod.fst).Nodup := ((hp.map Prod.fst)).nodup hn
  exact List.eq_of_perm_of_sorted
    ((List.perm_insertionSort keyLE l1).trans (hp.trans (List.perm_insertionSort keyLE l2).symm))
    (sortPairs_sorted_strict hn) (sortPairs_sorted_strict hn2)

/-- The canonical encoding is deterministic: it does not depend on the
iteration order of the (duplicate-free) map entries. -/
theorem canonicalEncoding_perm {b1 b2 : Body} (hp : b1.Perm b2)
    (hn : (b1.map Prod.fst).Nodup) : canonicalEncoding b1 = canonicalEncoding b2 := by
  have h1 : (encodePairs b1).Perm (encodePairs b2) := by
    rw [encodePairs_eq_map, encodePairs_eq_map]
    exact hp.map _
  have hkeys : ((encodePairs b1).map Prod.fst).Nodup := by
    rw [encodePairs_eq_map, List.map_map]
    exact hn
  have hsort := sortPairs_eq_of_perm h1 hkeys
  rw [canonicalEncoding, canonicalEncoding]
  simp only [encodeJVal]
  rw [hsort]

/-- C1 counterexample: at a 256-byte parent revision ID the code digests
`byte(len(p))` = `len(p) mod 256` = 0, so the digest differs from the one
over a leading byte equal to `len(p)`. -/
theorem createRevID_len_counterexample :
    createRevID 2 (String.mk (List.replicate 256 'a')) [] ≠
      createRevIDFromSpec 2 (String.mk (List.replicate 256 'a')) [] := by decide

/-- C1 (amended): for every parent revision ID shorter than 256 bytes,
`createRevID(g, p, b)` is exactly `"<g>-<hex>"` with `<hex>` the lowercase
hex MD5 of `len(p) byte || p bytes || canonicalEncoding(strip(b))` (the
leading byte is `len(p) mod 256` in general); and the canonical JSON
encoding is deterministic — invariant under reordering of the body's
(duplicate-free) entries, keys sorted. -/
theorem createRevID_follows_spec (g : Int) (p : String) (b : Body)
    (hp : (strBytes p).length < 256) :
    createRevID g p b = createRevIDFromSpec g p b ∧
    ∀ b1 b2 : Body, b1.Perm b2 → (b1.map Prod.fst).Nodup →
      canonicalEncoding b1 = canonicalEncoding b2 := by
  refine ⟨?_, fun b1 b2 hperm hnd => canonicalEncoding_perm hperm hnd⟩
  rw [createRevID, createRevIDFromSpec, Nat.mod_eq_of_lt hp]

/-- C1 witness: a concrete short parent. -/
theorem createRevID_follows_spec_witness :
    createRevID 2 "1-aaa" [] = createRevIDFromSpec 2 "1-aaa" [] := by
  have h := createRevID_follows_spec 2 "1-aaa" [] (by decide)
  exact h.1

/-! ## Scanner lemmas for well-formed revision IDs -/

theorem takeWhile_append_all {p : Char → Bool} :
    ∀ (l r : List Char), (∀ a ∈ l, p a = true) → (∀ c, r.head? = some c → p c = false) →
      (l ++ r).takeWhile p = l ∧ (l ++ r).dropWhile p = r := by
  intro l
  induction l with
  | nil =>
    intro r _ hr
    cases r with
    | nil => simp
    | cons c t =>
      have hc := hr c rfl
      simp [List.takeWhile_cons, List.dropWhile_cons, hc]
  | cons a l ih =>
    intro r hl hr
    have ha : p a = true := hl a (List.mem_cons_self _ _)
    have ih' := ih r (fun x hx => hl x (List.mem_cons_of_mem _ hx)) hr
    simp [List.takeWhile_cons, List.dropWhile_cons, ha, ih'.1, ih'.2]

theorem isDigit_not_goSpace {c : Char} (h : c.isDigit = true) : isGoSpace c = false := by
  simp only [isGoSpace, isSkipSpace, isNewlineChar, Bool.or_eq_false_iff,
    decide_eq_false_iff_not]
  repeat' apply And.intro
  all_goals (rintro rfl; exact absurd h (by decide))

theorem isDigit_ne_dash {c : Char} (h : c.isDigit = true) : c ≠ '-' := by
  rintro rfl
  exact absurd h (by decide)

theorem isDigit_ne_plus {c : Char} (h : c.isDigit = true) : c ≠ '+' := by
  rintro rfl
  exact absurd h (by decide)

theorem skipSpace_of_head_nonspace {c : Char} {t : List Char} (h : isGoSpace c = false) :
    skipSpaceNoNL (c :: t) = some (c :: t) := by
  rw [isGoSpace, Bool.or_eq_false_iff] at h
  have h2 := h.2
  rw [isNewlineChar, Bool.or_eq_false_iff, decide_eq_false_iff_not,
    decide_eq_false_iff_not] at h2
  simp [skipSpaceNoNL, h.1, h2.1, h2.2]

theorem sscan_wellFormed (ds : List Char) (d : String)
    (h1 : ds ≠ []) (h2 : ∀ c ∈ ds, c.isDigit = true)
    (h3max : natOfDigits ds ≤ 9223372036854775807)
    (h4 : d ≠ "") (h5 : ∀ c ∈ d.data, isGoSpace c = false) :
    sscanIntDashString (ds ++ '-' :: d.data) = (2, (natOfDigits ds : Int), d) := by
  obtain ⟨c0, ds', rfl⟩ : ∃ c0 ds', ds = c0 :: ds' := by
    cases ds with
    | nil => exact absurd rfl h1
    | cons a t => exact ⟨a, t, rfl⟩
  have hc0 : c0.isDigit = true := h2 c0 (by simp)
  obtain ⟨c1, t1, hd⟩ : ∃ c1 t1, d.data = c1 :: t1 := by
    cases hdd : d.data with
    | nil => exact absurd (String.ext (hdd.trans rfl) : d = "") h4
    | cons a t => exact ⟨a, t, rfl⟩
  have hskip : skipSpaceNoNL (c0 :: (ds' ++ '-' :: d.data)) =
      some (c0 :: (ds' ++ '-' :: d.data)) :=
    skipSpace_of_head_nonspace (isDigit_not_goSpace hc0)
  have hd1 : c0 ≠ '-' := isDigit_ne_dash hc0
  have hd2 : c0 ≠ '+' := isDigit_ne_plus hc0
  have htake := takeWhile_append_all (p := Char.isDigit) (c0 :: ds') ('-' :: d.data) h2
    (by
      intro c hc
      simp only [List.head?_cons, Option.some.injEq] at hc
      subst hc
      decide)
  rw [List.cons_append] at htake
  have hskip2 : skipSpaceNoNL (c1 :: t1) = some (c1 :: t1) :=
    skipSpace_of_head_nonspace (h5 c1 (by rw [hd]; exact List.mem_cons_self _ _))
  have htok := takeWhile_append_all (p := fun c => !(isGoSpace c)) (c1 :: t1) []
    (by
      intro a ha
      rw [← hd] at ha
      simp [h5 a ha])
    (by intro c hc; simp at hc)
  rw [List.append_nil] at htok
  have hmk : String.mk (c1 :: t1) = d := by
    rw [← hd]
  have hbound : ¬(natOfDigits (c0 :: ds') > 9223372036854775807) := by omega
  rw [List.cons_append, sscanIntDashString, hskip]
  simp only [List.head?_cons, List.tail_cons, Option.some.injEq, hd1, hd2, if_false,
    ite_false, scanAfterSign, htake.1, htake.2]
  simp only [List.isEmpty_cons, Bool.false_eq_true, if_false, Bool.ite_eq_true_distrib,
    hbound]
  rw [hd]
  simp only [scanDashDigest, hskip2, htok.1, List.isEmpty_cons, Bool.false_eq_true, if_false,
    hmk]

/-! ## C4: ParseRevID on well-formed and sample inputs (corrected: `%d`
fails on int64 overflow) -/

/-- C4 counterexample: 2^63 is a positive decimal integer and `"x"` a
non-empty whitespace-free digest, but Go's `%d` scan fails on the token
(int64 overflow in `strconv.ParseInt`), so `ParseRevID` returns the
sentinel, not `(2^63, "x")` as the claim states. -/
theorem parseRevID_overflow_counterexample :
    ParseRevID "9223372036854775808-x" = (-1, "") ∧
    ParseRevID "9223372036854775808-x" ≠ ((9223372036854775808 : Int), "x") := by decide

/-- C4 (amended): `ParseRevID` recovers `(generation, digest)` from every
well-formed `"<g>-<d>"` whose generation is a positive decimal integer
representable in int64 (digits with value between 1 and 2^63 - 1) and whose
digest is non-empty and whitespace-free, and handles the samples:
`"3-huey" ↦ (3, "huey")`, `"x-14159" ↦ (-1, "")`, `"" ↦ (0, "")`. -/
theorem parseRevID_spec (ds : List Char) (d : String)
    (h1 : ds ≠ []) (h2 : ∀ c ∈ ds, c.isDigit = true) (h3 : 1 ≤ natOfDigits ds)
    (h3max : natOfDigits ds ≤ 9223372036854775807)
    (h4 : d ≠ "") (h5 : ∀ c ∈ d.data, isGoSpace c = false) :
    ParseRevID (String.mk ds ++ "-" ++ d) = ((natOfDigits ds : Int), d) ∧
    ParseRevID "3-huey" = (3, "huey") ∧
    ParseRevID "x-14159" = (-1, "") ∧
    ParseRevID "" = (0, "") := by
  refine ⟨?_, by decide, by decide, by decide⟩
  have hdata : (String.mk ds ++ "-" ++ d).data = ds ++ '-' :: d.data := by
    simp [String.data_append]
  have hne : String.mk ds ++ "-" ++ d ≠ "" := by
    intro he
    have hd0 : (String.mk ds ++ "-" ++ d).data = [] := by rw [he]
    rw [hdata] at hd0
    cases ds with
    | nil => simp at hd0
    | cons a t => simp at hd0
  rw [ParseRevID, if_neg hne]
  simp only [hdata, sscan_wellFormed ds d h1 h2 h3max h4 h5]
  have hcond : ¬((2 : Nat) < 1 ∨ (natOfDigits ds : Int) < 1) := by
    rintro (hlt | hlt)
    · omega
    · have h3' : (1 : Int) ≤ (natOfDigits ds : Int) := by exact_mod_cast h3
      omega
  rw [if_neg hcond]

/-- C4 witness: the well-formed case applied at `"12-abc"`. -/
theorem parseRevID_spec_witness : ParseRevID "12-abc" = (12, "abc") := by
  have h := (parseRevID_spec ['1', '2'] "abc" (by decide) (by decide) (by decide)
    (by decide) (by decide) (by decide)).1
  have e1 : String.mk ['1', '2'] ++ "-" ++ "abc" = "12-abc" := by decide
  have e2 : ((natOfDigits ['1', '2'] : Int), "abc") = ((12 : Int), "abc") := by decide
  rw [e1, e2] at h
  exact h

/-! ## C5: malformed inputs (corrected: some return `(g, "")`) -/

/-- C5 counterexample: `"3-"` is non-empty and not of the form
`<gen>-<digest>` with a non-empty digest, yet `ParseRevID` returns
`(3, "")`, not the sentinel `(-1, "")`. -/
theorem parseRevID_malformed_counterexample :
    ParseRevID "3-" = (3, "") ∧ ParseRevID "3-" ≠ (-1, "") := by decide

/-- C5 (amended): `ParseRevID` never raises; every non-empty input yields
either the sentinel `(-1, "")` or a generation ≥ 1 — malformed strings that
begin with a scannable positive integer (such as `"3-"` or `"3x"`) return
`(g, "")` rather than the sentinel. -/
theorem parseRevID_malformed (s : String) (h : s ≠ "") :
    ParseRevID s = (-1, "") ∨ 1 ≤ (ParseRevID s).1 := by
  rw [ParseRevID, if_neg h]
  by_cases hc : (sscanIntDashString s.data).1 < 1 ∨ (sscanIntDashString s.data).2.1 < 1
  · rw [if_pos hc]
    exact Or.inl rfl
  · rw [if_neg hc]
    push_neg at hc
    exact Or.inr hc.2

/-- C5 witness: the amended statement applied at the counterexample input. -/
theorem parseRevID_malformed_witness :
    ParseRevID "3-" = (-1, "") ∨ 1 ≤ (ParseRevID "3-").1 :=
  parseRevID_malformed "3-" (by decide)

/-! ## C6: the reserved-key acceptance set (corrected: `_exp` is rejected) -/

/-- C6 counterexample: a body whose only underscore key is the reserved
`_exp` IS flagged by `containsUserSpecialProperties` (the claim says it is
not). -/
theorem containsUserSpecialProperties_exp_counterexample :
    containsUserSpecialProperties [("_exp", JVal.num 300)] = true := rfl

/-- C6 (amended): bodies whose underscore keys are all drawn from
`{_id, _rev, _deleted, _attachments, _revisions}` — `_exp` excluded — are
not flagged. -/
theorem containsUserSpecialProperties_reserved (body : Body)
    (h : ∀ kv ∈ body, keyStartsUnderscore kv.1 = true →
      kv.1 = BodyId ∨ kv.1 = BodyRev ∨ kv.1 = BodyDeleted ∨ kv.1 = BodyAttachments ∨
        kv.1 = BodyRevisions) :
    containsUserSpecialProperties body = false := by
  rw [containsUserSpecialProperties, List.any_eq_false]
  intro kv hkv
  by_cases hu : keyStartsUnderscore kv.1 = true
  · rcases h kv hkv hu with h1 | h1 | h1 | h1 | h1 <;> simp [h1, BodyId, BodyRev, BodyDeleted, BodyAttachments, BodyRevisions]
  · have hu' : keyStartsUnderscore kv.1 = false := by
      revert hu
      cases keyStartsUnderscore kv.1 <;> simp
    simp [hu']

/-- C6 witness: a body using only reserved keys (and ordinary keys) is
accepted. -/
theorem containsUserSpecialProperties_reserved_witness :
    containsUserSpecialProperties [("_id", JVal.str "doc"), ("name", JVal.str "x")] = false := by
  have h := containsUserSpecialProperties_reserved
    [("_id", JVal.str "doc"), ("name", JVal.str "x")] (by decide)
  exact h

/-! ## C8: old-revision archive round-trip -/

theorem prependSentinel_eq (body : List Nat) :
    prependSentinel body = nonJSONSentinel :: body := by
  cases body with
  | nil => rfl
  | cons a t => simp [prependSentinel, List.take_left]

/-- C8: after `setOldRevisionJSON`, the bucket holds `0x01 ++ body` under
`"_sync:rev:<docid>:<len(revid)>:<revid>"`, and `getOldRevisionJSON` strips
the sentinel and returns exactly `body`. -/
theorem oldRevision_roundtrip (bkt : Bucket) (docid revid : String) (body : List Nat) :
    (setOldRevisionJSON bkt docid revid body)
        ("_sync:rev:" ++ docid ++ ":" ++ toString (strBytes revid).length ++ ":" ++ revid) =
      some ((1 : Nat) :: body) ∧
    getOldRevisionJSON (setOldRevisionJSON bkt docid revid body) docid revid = .ok body := by
  have hs : setOldRevisionJSON bkt docid revid body (oldRevisionKey docid revid) =
      some ((1 : Nat) :: body) := by
    simp [setOldRevisionJSON, bucketSetRaw, prependSentinel_eq, nonJSONSentinel]
  constructor
  · simpa [oldRevisionKey] using hs
  · simp [getOldRevisionJSON, hs, nonJSONSentinel]

/-! ## C9: extractExpiry removes only `_exp` -/

/-- C9: when `_exp` is present and converts to a value, `extractExpiry`
returns that value with no error, removes `_exp`, and leaves every other key
bound to its previous value; when `_exp` is absent it returns `(0, nil)` and
the body is unchanged. -/
theorem extractExpiry_frame (reflectExpiry : JVal → Option Nat × Option Unit) (body : Body) :
    (∀ raw v, body.lookup "_exp" = some raw → reflectExpiry raw = (some v, none) →
      (extractExpiry reflectExpiry body).1 = (v, none) ∧
      ((extractExpiry reflectExpiry body).2).lookup "_exp" = none ∧
      ∀ k, k ≠ "_exp" →
        ((extractExpiry reflectExpiry body).2).lookup k = body.lookup k) ∧
    (body.lookup "_exp" = none → extractExpiry reflectExpiry body = ((0, none), body)) := by
  constructor
  · intro raw v hraw hrefl
    have hge : getExpiry reflectExpiry body = (v, true, none) := by
      simp [getExpiry, hraw, hrefl]
    have hex : extractExpiry reflectExpiry body =
        ((v, none), body.filter fun kv => kv.1 != "_exp") := by
      simp [extractExpiry, hge]
    refine ⟨by rw [hex], ?_, ?_⟩
    · rw [hex]
      have h := lookup_filterKey (fun key => key != "_exp") body "_exp"
      simpa using h
    · intro k hk
      rw [hex]
      have h := lookup_filterKey (fun key => key != "_exp") body k
      simpa [hk] using h
  · intro hno
    simp [extractExpiry, getExpiry, hno]

/-- C9 witness: concrete conversion of `_exp: 7` next to an untouched key. -/
theorem extractExpiry_frame_witness :
    (extractExpiry (fun _ => (some 7, none)) [("_exp", JVal.num 7), ("a", JVal.null)]).1 =
      (7, none) := by
  have h := extractExpiry_frame (fun _ => (some 7, none)) [("_exp", JVal.num 7), ("a", JVal.null)]
  exact (h.1 (JVal.num 7) 7 rfl rfl).1

/-! ## C10: Body.Unmarshal -/

/-- C10: `Body.Unmarshal` rejects zero-length input with an error before any
decoding, leaving the receiver unmodified; non-empty input is decoded with
the `UseNumber` flag set (numbers preserved, not coerced to float64). -/
theorem bodyUnmarshal_spec (decode : Bool → List Nat → Body → Option String × Body) (b : Body) :
    Body.Unmarshal decode b [] = (some "Unexpected empty JSON input to body.Unmarshal", b) ∧
    ∀ data : List Nat, data ≠ [] → Body.Unmarshal decode b data = decode true data b := by
  constructor
  · rfl
  · intro data hd
    rw [Body.Unmarshal, if_neg]
    simpa using hd

/-- C10 witness: decoding `{}` with a decoder that returns its input body. -/
theorem bodyUnmarshal_spec_witness :
    Body.Unmarshal (fun _ _ bod => (none, bod)) [] [123, 125] = (none, []) := by
  have h := bodyUnmarshal_spec (fun _ _ bod => (none, bod)) []
  exact h.2 [123, 125] (by decide)

end SGW
